import Mathlib

/-!
# chatdemo: connection registry, broadcast and session loop

A shallow embedding of `server/server.go`.

* A Go string and a Go byte slice are both byte sequences; they are lists of
  naturals, one entry (below 256) per byte.  `string(payload)` and
  `[]byte(msg)` are therefore the identity.
* A non-nil `net.Conn` is a handle (a natural number); two connections are
  the same connection when the handles are equal.
* `map[string]net.Conn` is an association list.  Go leaves the iteration
  order of a map unspecified: the order of the list stands for the order in
  which `range` visits the entries, and every statement below is proved for
  every list, hence for every order.
* Effects (frames written, connections closed, errors logged, goroutines
  started) are recorded as a list of events in program order.
* Whether a write on a connection fails is decided by an arbitrary function
  from the number of the write inside the call to a boolean.
* A run-time panic of Go (slice bounds, method call on a nil interface) is
  the `error` branch of `Except`.
-/

namespace ChatDemo

/-- Byte sequences: the contents of a Go `string` or `[]byte`. -/
abbrev Bytes := List Nat

/-- Bytes of an ASCII string literal of the source. -/
def str (s : String) : Bytes := s.toList.map Char.toNat

/-- Handle of a non-nil `net.Conn`. -/
abbrev Conn := Nat

/-- Value of the constant `CommandPing`. -/
def CommandPing : Nat := 101

/-- Value of the constant `CommandPong`. -/
def CommandPong : Nat := 102

/-- Frame opcodes of `ws.OpCode` (a byte; the values not named are reserved). -/
inductive OpCode where
  | OpContinuation
  | OpText
  | OpBinary
  | OpClose
  | OpPing
  | OpPong
  | OpReserved (code : Nat)
  deriving DecidableEq, Repr

/-- Errors returned by `readLoop`: the error of `ws.ReadFrame`, or one made by `errors.New`. -/
inductive Error where
  | read (code : Nat)
  | new (text : String)
  deriving DecidableEq, Repr

/-- Run-time panics of the Go code. -/
inductive Fault where
  | sliceBounds
  | nilConn
  deriving DecidableEq, Repr

/-- Observable effects, in program order. -/
inductive Event where
  | write (conn : Conn) (op : OpCode) (payload : Bytes)
  | close (conn : Conn)
  | logError (who : Bytes)
  | goHandle (user : Bytes) (msg : Bytes)
  | goHandleBinary (user : Bytes) (msg : Bytes)
  deriving DecidableEq, Repr

/-- Fields `writewait` and `readwait` of `ServerOptions`, in nanoseconds. -/
structure ServerOptions where
  writewait : Nat
  readwait : Nat
  deriving DecidableEq, Repr

/-- The `Server` struct: `once` is the done flag of the `sync.Once`, `users` the map. -/
structure Server where
  once : Bool
  options : ServerOptions
  id : Bytes
  address : Bytes
  users : List (Bytes × Conn)
  deriving DecidableEq, Repr

/-- Map index expression `m[key]` in its two-value form. -/
def mapGet : List (Bytes × Conn) → Bytes → Option Conn
  | [], _ => none
  | (k, v) :: rest, key => if k = key then some v else mapGet rest key

/-- Builtin `delete(m, key)`. -/
def mapDelete (m : List (Bytes × Conn)) (key : Bytes) : List (Bytes × Conn) :=
  m.filter (fun e => decide (e.1 ≠ key))

/-- Map assignment `m[key] = v`. -/
def mapSet (m : List (Bytes × Conn)) (key : Bytes) (v : Conn) : List (Bytes × Conn) :=
  (key, v) :: mapDelete m key

/-- Constructor `newServer`. -/
def newServer (id address : Bytes) : Server :=
  { once := false
    options := { writewait := 10 * 1000000000, readwait := 2 * 60 * 1000000000 }
    id := id
    address := address
    users := [] }

/-- Constructor `NewServer`. -/
def NewServer (id address : Bytes) : Server := newServer id address

/-- Method `Server.addUser`: the old entry, whether there was one, and the new state. -/
def addUser (s : Server) (user : Bytes) (conn : Conn) : (Option Conn × Bool) × Server :=
  let old := mapGet s.users user
  ((old, old.isSome), { s with users := mapSet s.users user conn })

/-- Method `Server.delUser`. -/
def delUser (s : Server) (user : Bytes) : Server :=
  { s with users := mapDelete s.users user }

/-- Loop of `Shutdown`: `for _, conn := range s.users { conn.Close() }`. -/
def closeAll : List (Bytes × Conn) → List Event
  | [] => []
  | (_, conn) :: rest => Event.close conn :: closeAll rest

/-- Method `Server.Shutdown`: `sync.Once.Do` runs the body on the first call only. -/
def Shutdown (s : Server) : List Event × Server :=
  if s.once then ([], s) else (closeAll s.users, { s with once := true })

/-- Steps 2 and 3 of the handler in `Start`, for an upgraded connection. -/
def register (s : Server) (user : Bytes) (conn : Conn) : List Event × Server :=
  if user = [] then ([Event.close conn], s)
  else
    let r := addUser s user conn
    ((if r.1.2 then r.1.1.toList.map Event.close else []), r.2)

/-- Deferred block of the session goroutine in `Start`: `conn.Close(); s.delUser(user)`. -/
def teardown (s : Server) (user : Bytes) (conn : Conn) : List Event × Server :=
  ([Event.close conn], delUser s user)

/-- Body of the `range` loop of `handle`; `k` counts the writes attempted so far. -/
def handleLoop (fail : Nat → Bool) (user broadcast : Bytes) :
    Nat → List (Bytes × Conn) → List Event
  | _, [] => []
  | k, (u, conn) :: rest =>
    if u = user then handleLoop fail user broadcast k rest
    else
      Event.write conn OpCode.OpText broadcast ::
        ((if fail k then [Event.logError u] else []) ++
          handleLoop fail user broadcast (k + 1) rest)

/-- Result of `fmt.Sprintf("%s ----from %s", msg, user)`. -/
def Sprintf (msg user : Bytes) : Bytes := msg ++ str " ----from " ++ user

/-- Method `Server.handle`. -/
def handle (fail : Nat → Bool) (s : Server) (user msg : Bytes) : List Event × Server :=
  (handleLoop fail user (Sprintf msg user) 0 s.users, s)

/-- Slice expression `b[lo:hi]` on a slice whose capacity is its length. -/
def slice (b : Bytes) (lo hi : Nat) : Except Fault Bytes :=
  if lo ≤ hi ∧ hi ≤ b.length then Except.ok ((b.drop lo).take (hi - lo))
  else Except.error Fault.sliceBounds

/-- Function `binary.BigEndian.Uint16` on a slice of two bytes. -/
def Uint16 (b : Bytes) : Nat := (b.getD 0 0 * 256 + b.getD 1 0) % 2 ^ 16

/-- Function `binary.BigEndian.Uint32` on a slice of four bytes. -/
def Uint32 (b : Bytes) : Nat :=
  (b.getD 0 0 * 256 ^ 3 + b.getD 1 0 * 256 ^ 2 + b.getD 2 0 * 256 + b.getD 3 0) % 2 ^ 32

/-- Method `Server.handleBinary`. -/
def handleBinary (fail : Nat → Bool) (s : Server) (user msg : Bytes) :
    Except Fault (List Event × Server) :=
  match slice msg 0 2 with
  | Except.error e => Except.error e
  | Except.ok head =>
    let command := Uint16 head
    match slice msg 2 6 with
    | Except.error e => Except.error e
    | Except.ok _ =>
      if command = CommandPing then
        match mapGet s.users user with
        | none => Except.error Fault.nilConn
        | some u =>
          Except.ok
            (Event.write u OpCode.OpBinary [0, CommandPong, 0, 0, 0, 0] ::
              (if fail 0 then [Event.logError user] else []), s)
      else Except.ok ([], s)

/-- Header of a frame: the fields of `ws.Header` that `readLoop` reads. -/
structure Header where
  OpCode : OpCode
  Masked : Bool
  Mask : List Nat
  deriving DecidableEq, Repr

/-- A frame as returned by `ws.ReadFrame`. -/
structure Frame where
  Header : Header
  Payload : Bytes
  deriving DecidableEq, Repr

/-- Library function `ws.Cipher`: byte `i` of the payload is xored with byte
`(offset + i) % 4` of the mask. -/
def Cipher : Bytes → List Nat → Nat → Bytes
  | [], _, _ => []
  | b :: rest, mask, offset => Nat.xor b (mask.getD (offset % 4) 0) :: Cipher rest mask (offset + 1)

/-- One result of `ws.ReadFrame`: a frame, or an error. -/
inductive ReadResult where
  | frame (f : Frame)
  | err (e : Error)
  deriving DecidableEq, Repr

/-- Outcome of `readLoop` on the read results available: the effects, the error
returned (`none` while the loop is still waiting for the next read), and the
read results not consumed. -/
structure LoopResult where
  events : List Event
  returned : Option Error
  unread : List ReadResult
  deriving DecidableEq, Repr

/-- What `readLoop` does with a Text or Binary frame after unmasking. -/
def dispatch (user : Bytes) (f : Frame) : List Event :=
  let payload := if f.Header.Masked then Cipher f.Payload f.Header.Mask 0 else f.Payload
  if f.Header.OpCode = OpCode.OpText then [Event.goHandle user payload]
  else if f.Header.OpCode = OpCode.OpBinary then [Event.goHandleBinary user payload]
  else []

/-- Method `Server.readLoop` over the successive results of `ws.ReadFrame(conn)`. -/
def readLoop (user : Bytes) (conn : Conn) : List ReadResult → LoopResult
  | [] => { events := [], returned := none, unread := [] }
  | ReadResult.err e :: rest => { events := [], returned := some e, unread := rest }
  | ReadResult.frame f :: rest =>
    if f.Header.OpCode = OpCode.OpPing then
      let r := readLoop user conn rest
      { r with events := Event.write conn OpCode.OpPong [] :: r.events }
    else if f.Header.OpCode = OpCode.OpClose then
      { events := [], returned := some (Error.new "user side close the conn"), unread := rest }
    else
      let r := readLoop user conn rest
      { r with events := dispatch user f ++ r.events }

/-- Frames written on connections, extracted from a list of events. -/
def writes : List Event → List (Conn × OpCode × Bytes)
  | [] => []
  | Event.write c op p :: rest => (c, op, p) :: writes rest
  | Event.close _ :: rest => writes rest
  | Event.logError _ :: rest => writes rest
  | Event.goHandle _ _ :: rest => writes rest
  | Event.goHandleBinary _ _ :: rest => writes rest

/-- Identifiers whose write error was logged, extracted from a list of events. -/
def logged : List Event → List Bytes
  | [] => []
  | Event.logError u :: rest => u :: logged rest
  | Event.write _ _ _ :: rest => logged rest
  | Event.close _ :: rest => logged rest
  | Event.goHandle _ _ :: rest => logged rest
  | Event.goHandleBinary _ _ :: rest => logged rest

/-- Connections closed, extracted from a list of events. -/
def closed : List Event → List Conn
  | [] => []
  | Event.close c :: rest => c :: closed rest
  | Event.write _ _ _ :: rest => closed rest
  | Event.logError _ :: rest => closed rest
  | Event.goHandle _ _ :: rest => closed rest
  | Event.goHandleBinary _ _ :: rest => closed rest

/-- Successive calls `s.addUser(id, c)` for the connections of a list, in order:
the values returned by the calls, and the final state. -/
def addUsers (s : Server) (id : Bytes) : List Conn → List (Option Conn × Bool) × Server
  | [] => ([], s)
  | c :: cs =>
    let r := addUser s id c
    let t := addUsers r.2 id cs
    (r.1 :: t.1, t.2)

/-- Successive calls of `s.Shutdown()`: all the effects, and the final state. -/
def shutdowns (s : Server) : Nat → List Event × Server
  | 0 => ([], s)
  | n + 1 =>
    let r := Shutdown s
    let t := shutdowns r.2 n
    (r.1 ++ t.1, t.2)

/-- Payload handed to the dispatcher: unmasked when the header says it is masked. -/
def unmasked (f : Frame) : Bytes :=
  if f.Header.Masked then Cipher f.Payload f.Header.Mask 0 else f.Payload

/-- Session state machine of the specification, one frame in state Reading: a
Ping is answered by one Pong on the same connection, a Text frame is handed to
`handle` and a Binary frame to `handleBinary` with the unmasked payload, and any
other frame that does not close the session has no effect. -/
def sessionStep (user : Bytes) (conn : Conn) (f : Frame) : List Event :=
  match f.Header.OpCode with
  | OpCode.OpPing => [Event.write conn OpCode.OpPong []]
  | OpCode.OpText => [Event.goHandle user (unmasked f)]
  | OpCode.OpBinary => [Event.goHandleBinary user (unmasked f)]
  | _ => []

/-- Effects of the specification's session on a sequence of frames, in order. -/
def sessionSteps (user : Bytes) (conn : Conn) : List Frame → List Event
  | [] => []
  | f :: rest => sessionStep user conn f ++ sessionSteps user conn rest

/-- Server of `main.go` (identifier "abc", listening on ":8080") with the users
"a" and "b" connected. -/
def demoServer : Server :=
  { newServer (str "abc") (str ":8080") with users := [(str "a", 1), (str "b", 2)] }

/-! ## The map -/

theorem mapGet_mapDelete_self (m : List (Bytes × Conn)) (k : Bytes) :
    mapGet (mapDelete m k) k = none := by
  induction m with
  | nil => rfl
  | cons e rest ih =>
    obtain ⟨a, b⟩ := e
    by_cases h : a = k
    · simpa [mapDelete, h] using ih
    · simpa [mapDelete, h, mapGet] using ih

theorem mapGet_mapDelete_ne (m : List (Bytes × Conn)) (k other : Bytes) (h : other ≠ k) :
    mapGet (mapDelete m k) other = mapGet m other := by
  induction m with
  | nil => rfl
  | cons e rest ih =>
    obtain ⟨a, b⟩ := e
    by_cases ha : a = k
    · have hne : a ≠ other := fun hh => h (hh ▸ ha)
      simpa [mapDelete, ha, mapGet, hne, ha ▸ hne] using ih
    · by_cases hb : a = other
      · subst hb
        simp [mapDelete, mapGet, h]
      · simpa [mapDelete, ha, mapGet, hb] using ih

theorem mapGet_mapSet_self (m : List (Bytes × Conn)) (k : Bytes) (v : Conn) :
    mapGet (mapSet m k v) k = some v := by
  simp [mapSet, mapGet]

theorem mapGet_mapSet_ne (m : List (Bytes × Conn)) (k other : Bytes) (v : Conn)
    (h : other ≠ k) : mapGet (mapSet m k v) other = mapGet m other := by
  have hk : k ≠ other := fun hh => h hh.symm
  simp [mapSet, mapGet, hk, mapGet_mapDelete_ne m k other h]

theorem mapDelete_absent (m : List (Bytes × Conn)) (k : Bytes) (h : mapGet m k = none) :
    mapDelete m k = m := by
  induction m with
  | nil => rfl
  | cons e rest ih =>
    obtain ⟨a, b⟩ := e
    by_cases ha : a = k
    · simp [mapGet, ha] at h
    · simp only [mapGet, ha, if_false] at h
      have := ih h
      simp only [mapDelete] at this ⊢
      rw [List.filter_cons_of_pos (by simpa using ha), this]

theorem mapDelete_mapSet (m : List (Bytes × Conn)) (k : Bytes) (v : Conn) :
    mapDelete (mapSet m k v) k = mapDelete m k := by
  simp [mapSet, mapDelete, List.filter_filter]

theorem mapSet_entries_self (m : List (Bytes × Conn)) (k : Bytes) (v : Conn) :
    (mapSet m k v).filter (fun e => decide (e.1 = k)) = [(k, v)] := by
  simp [mapSet, mapDelete, List.filter_filter]

theorem mem_of_mapGet (m : List (Bytes × Conn)) (k : Bytes) (v : Conn)
    (h : mapGet m k = some v) : (k, v) ∈ m := by
  induction m with
  | nil => simp [mapGet] at h
  | cons e rest ih =>
    obtain ⟨a, b⟩ := e
    by_cases ha : a = k
    · simp [mapGet, ha] at h
      simp [ha, h]
    · simp only [mapGet, ha, if_false] at h
      exact List.mem_cons_of_mem _ (ih h)

/-! ## Broadcast -/

theorem writes_append (a b : List Event) : writes (a ++ b) = writes a ++ writes b := by
  induction a with
  | nil => rfl
  | cons e rest ih => cases e <;> simp [writes, ih]

theorem logged_append (a b : List Event) : logged (a ++ b) = logged a ++ logged b := by
  induction a with
  | nil => rfl
  | cons e rest ih => cases e <;> simp [logged, ih]

theorem writes_handleLoop (fail : Nat → Bool) (user b : Bytes) (m : List (Bytes × Conn)) :
    ∀ k, writes (handleLoop fail user b k m) =
      (m.filter (fun e => decide (e.1 ≠ user))).map (fun e => (e.2, OpCode.OpText, b)) := by
  induction m with
  | nil => intro k; rfl
  | cons e rest ih =>
    intro k
    obtain ⟨u, c⟩ := e
    by_cases hu : u = user
    · simp [handleLoop, hu, ih k]
    · cases hf : fail k <;> simp [handleLoop, hu, hf, writes, ih (k + 1)]

theorem logged_handleLoop (fail : Nat → Bool) (user b : Bytes) (m : List (Bytes × Conn)) :
    ∀ k, logged (handleLoop fail user b k m) =
      ((List.enumFrom k (m.filter (fun e => decide (e.1 ≠ user)))).filter
        (fun p => fail p.1)).map (fun p => p.2.1) := by
  induction m with
  | nil => intro k; rfl
  | cons e rest ih =>
    intro k
    obtain ⟨u, c⟩ := e
    by_cases hu : u = user
    · simp [handleLoop, hu, ih k]
    · cases hf : fail k <;>
        simp [handleLoop, hu, hf, logged, ih (k + 1), List.enumFrom]

theorem count_conn_of_peer (m : List (Bytes × Conn)) (user u : Bytes) (c : Conn)
    (hconn : (m.map Prod.snd).Nodup) (hmem : (u, c) ∈ m) (hu : u ≠ user) :
    ((m.filter (fun e => decide (e.1 ≠ user))).map Prod.snd).count c = 1 := by
  apply List.count_eq_one_of_mem
  · exact List.Nodup.sublist ((List.filter_sublist m).map Prod.snd) hconn
  · exact List.mem_map.mpr ⟨(u, c), List.mem_filter.mpr ⟨hmem, by simpa using hu⟩, rfl⟩

theorem conn_of_sender_not_peer (m : List (Bytes × Conn)) (user : Bytes) (c : Conn)
    (hconn : (m.map Prod.snd).Nodup) (hmem : (user, c) ∈ m) :
    c ∉ (m.filter (fun e => decide (e.1 ≠ user))).map Prod.snd := by
  intro h
  obtain ⟨⟨u, c2⟩, hin, hc⟩ := List.mem_map.mp h
  obtain ⟨hin2, hne⟩ := List.mem_filter.mp hin
  simp only at hc
  subst hc
  have := List.inj_on_of_nodup_map hconn hin2 hmem rfl
  simp at hne
  exact hne (congrArg Prod.fst this)

/-- C2: `handle(S, msg)` writes one text frame per registry entry whose identifier
differs from `S`, addressed to that entry's connection; when the registered
connections are pairwise distinct, each connection registered under another
identifier receives exactly one frame and the connection registered under `S`
receives none; every frame written is a text frame whose payload is `msg`
followed by " ----from " followed by `S`. -/
theorem handle_broadcast (fail : Nat → Bool) (s : Server) (S msg : Bytes)
    (hconn : (s.users.map Prod.snd).Nodup) :
    writes (handle fail s S msg).1 =
        (s.users.filter (fun e => decide (e.1 ≠ S))).map
          (fun e => (e.2, OpCode.OpText, msg ++ str " ----from " ++ S)) ∧
      (∀ u c, u ≠ S → mapGet s.users u = some c →
        (writes (handle fail s S msg).1).count
            (c, OpCode.OpText, msg ++ str " ----from " ++ S) = 1 ∧
          ((writes (handle fail s S msg).1).map Prod.fst).count c = 1) ∧
      (∀ c, mapGet s.users S = some c →
        c ∉ (writes (handle fail s S msg).1).map Prod.fst) ∧
      (∀ w ∈ writes (handle fail s S msg).1,
        w.2 = (OpCode.OpText, msg ++ str " ----from " ++ S)) := by
  have hw := writes_handleLoop fail S (Sprintf msg S) s.users 0
  have hfst : (writes (handle fail s S msg).1).map Prod.fst =
      (s.users.filter (fun e => decide (e.1 ≠ S))).map Prod.snd := by
    simp only [handle, hw, List.map_map]
    rfl
  refine ⟨hw, ?_, ?_, ?_⟩
  · intro u c hu hget
    have hmem := mem_of_mapGet s.users u c hget
    have hcount := count_conn_of_peer s.users S u c hconn hmem hu
    have hone : ((writes (handle fail s S msg).1).map Prod.fst).count c = 1 := by
      rw [hfst]; exact hcount
    refine ⟨?_, hone⟩
    apply le_antisymm
    · calc (writes (handle fail s S msg).1).count
              (c, OpCode.OpText, msg ++ str " ----from " ++ S)
          ≤ ((writes (handle fail s S msg).1).map Prod.fst).count c :=
            List.count_le_count_map _ Prod.fst _
        _ = 1 := hone
    · apply List.count_pos_iff.mpr
      simp only [handle, hw]
      exact List.mem_map.mpr ⟨(u, c), List.mem_filter.mpr ⟨hmem, by simpa using hu⟩, rfl⟩
  · intro c hget
    rw [hfst]
    exact conn_of_sender_not_peer s.users S c hconn (mem_of_mapGet s.users S c hget)
  · intro w hwmem
    simp only [handle, hw] at hwmem
    obtain ⟨e, _, he⟩ := List.mem_map.mp hwmem
    rw [← he]
    rfl

/-- Witness of C2: with "a" and "b" registered, `handle("a", "hi")` writes
"hi ----from a" to the connection of "b" and nothing else. -/
theorem handle_broadcast_witness :
    (demoServer.users.map Prod.snd).Nodup ∧
      writes (handle (fun _ => false) demoServer (str "a") (str "hi")).1 =
        [(2, OpCode.OpText, str "hi ----from a")] :=
  ⟨by decide,
    (handle_broadcast (fun _ => false) demoServer (str "a") (str "hi") (by decide)).1.trans
      (by decide)⟩

/-- C7: whatever writes fail, `handle(S, msg)` attempts the same writes, one per
registry entry whose identifier differs from `S` (exactly one per peer
connection when the registered connections are pairwise distinct); it returns
with the server state unchanged, and the errors it logs are those of the
failed writes, one per failed write, in order. -/
theorem handle_failure_isolation (fail other : Nat → Bool) (s : Server) (S msg : Bytes) :
    writes (handle fail s S msg).1 = writes (handle other s S msg).1 ∧
      writes (handle fail s S msg).1 =
        (s.users.filter (fun e => decide (e.1 ≠ S))).map
          (fun e => (e.2, OpCode.OpText, Sprintf msg S)) ∧
      ((s.users.map Prod.snd).Nodup → ∀ u c, u ≠ S → mapGet s.users u = some c →
        ((writes (handle fail s S msg).1).map Prod.fst).count c = 1) ∧
      (handle fail s S msg).2 = s ∧
      logged (handle fail s S msg).1 =
        ((List.enumFrom 0 (s.users.filter (fun e => decide (e.1 ≠ S)))).filter
          (fun p => fail p.1)).map (fun p => p.2.1) := by
  have hw := writes_handleLoop fail S (Sprintf msg S) s.users 0
  have hw2 := writes_handleLoop other S (Sprintf msg S) s.users 0
  refine ⟨hw.trans hw2.symm, hw, ?_, rfl, logged_handleLoop fail S (Sprintf msg S) s.users 0⟩
  intro hconn u c hu hget
  have hfst : (writes (handle fail s S msg).1).map Prod.fst =
      (s.users.filter (fun e => decide (e.1 ≠ S))).map Prod.snd := by
    simp only [handle, hw, List.map_map]
    rfl
  rw [hfst]
  exact count_conn_of_peer s.users S u c hconn (mem_of_mapGet s.users u c hget) hu

/-- Witness of C7: with "a", "b" registered and a third user "c", a broadcast of
"a" whose first write fails still writes to both peers, and logs one error. -/
theorem handle_failure_isolation_witness :
    writes (handle (fun k => decide (k = 0))
        { demoServer with users := demoServer.users ++ [(str "c", 3)] } (str "a") (str "hi")).1 =
      [(2, OpCode.OpText, str "hi ----from a"), (3, OpCode.OpText, str "hi ----from a")] ∧
    logged (handle (fun k => decide (k = 0))
        { demoServer with users := demoServer.users ++ [(str "c", 3)] } (str "a") (str "hi")).1 =
      [str "b"] :=
  ⟨(handle_failure_isolation (fun k => decide (k = 0)) (fun _ => false)
      { demoServer with users := demoServer.users ++ [(str "c", 3)] } (str "a") (str "hi")).2.1.trans
      (by decide),
    (handle_failure_isolation (fun k => decide (k = 0)) (fun _ => false)
      { demoServer with users := demoServer.users ++ [(str "c", 3)] }
      (str "a") (str "hi")).2.2.2.2.trans (by decide)⟩

/-! ## Registry -/

/-- C3: `addUser(id, c)` returns `(old, true)` when `id` was registered to `old`
and `hadPrevious = false` (with a nil connection) when `id` was not registered;
afterwards the registry maps `id` to `c`, holds exactly one entry for `id`, and
the entry of every other identifier is unchanged, as are the other fields. -/
theorem addUser_spec (s : Server) (id : Bytes) (c : Conn) :
    (∀ old, mapGet s.users id = some old → (addUser s id c).1 = (some old, true)) ∧
      (mapGet s.users id = none → (addUser s id c).1 = (none, false)) ∧
      mapGet (addUser s id c).2.users id = some c ∧
      (addUser s id c).2.users.filter (fun e => decide (e.1 = id)) = [(id, c)] ∧
      (∀ other, other ≠ id →
        mapGet (addUser s id c).2.users other = mapGet s.users other) ∧
      (addUser s id c).2.users.filter (fun e => decide (e.1 ≠ id)) =
        s.users.filter (fun e => decide (e.1 ≠ id)) ∧
      (addUser s id c).2.once = s.once := by
  refine ⟨?_, ?_, ?_, ?_, ?_, ?_, rfl⟩
  · intro old h
    simp [addUser, h]
  · intro h
    simp [addUser, h]
  · exact mapGet_mapSet_self s.users id c
  · exact mapSet_entries_self s.users id c
  · intro other h
    exact mapGet_mapSet_ne s.users id other c h
  · exact mapDelete_mapSet s.users id c

/-- Example for C3 on the server with "a" and "b" registered: a second connection
for "a" displaces connection 1, a first connection for "c" displaces none. -/
theorem addUser_spec_witness :
    (addUser demoServer (str "a") 7).1 = (some 1, true) ∧
      (addUser demoServer (str "c") 7).1 = (none, false) :=
  ⟨(addUser_spec demoServer (str "a") 7).1 1 (by decide),
    (addUser_spec demoServer (str "c") 7).2.1 (by decide)⟩

theorem addUsers_reports (id : Bytes) (cs : List Conn) :
    ∀ (s : Server) (c : Conn), (addUsers s id (c :: cs)).1 =
      (mapGet s.users id, (mapGet s.users id).isSome) ::
        (c :: cs).dropLast.map (fun x => (some x, true)) := by
  induction cs with
  | nil => intro s c; rfl
  | cons d rest ih =>
    intro s c
    have h := ih (addUser s id c).2 d
    have hget : mapGet (addUser s id c).2.users id = some c := mapGet_mapSet_self s.users id c
    rw [hget] at h
    show (addUser s id c).1 :: (addUsers (addUser s id c).2 id (d :: rest)).1 = _
    rw [h]
    simp [addUser, List.dropLast]

theorem addUsers_snoc (id : Bytes) (pre : List Conn) :
    ∀ (s : Server) (x : Conn),
      (addUsers s id (pre ++ [x])).2 = (addUser (addUsers s id pre).2 id x).2 := by
  induction pre with
  | nil => intro s x; rfl
  | cons d rest ih =>
    intro s x
    exact ih (addUser s id d).2 x

theorem mapDelete_addUsers (id : Bytes) (pre : List Conn) :
    ∀ s : Server, mapDelete (addUsers s id pre).2.users id = mapDelete s.users id := by
  induction pre with
  | nil => intro s; rfl
  | cons d rest ih =>
    intro s
    show mapDelete (addUsers (addUser s id d).2 id rest).2.users id = _
    rw [ih (addUser s id d).2]
    exact mapDelete_mapSet s.users id d

theorem users_addUsers_snoc (id : Bytes) (pre : List Conn) (s : Server) (x : Conn)
    (habs : mapGet s.users id = none) :
    (addUsers s id (pre ++ [x])).2.users = (id, x) :: s.users := by
  rw [addUsers_snoc]
  show (id, x) :: mapDelete (addUsers s id pre).2.users id = _
  rw [mapDelete_addUsers, mapDelete_absent s.users id habs]

/-- C4: when `id` is not registered and the connections `c, cs...` are registered
under `id` in that order, the first `addUser` reports no previous holder and
every later call reports exactly the connection registered by the call before
it; after each call the registry maps `id` to the connection just registered
and holds exactly one entry for `id`; the handler of `Start` closes exactly the
reported connection; and a broadcast by another user then writes one frame to
the latest connection, and to a connection other than the latest only if the
registry held it before the registrations. -/
theorem addUsers_takeover (fail : Nat → Bool) (s : Server) (id S msg : Bytes) (c : Conn)
    (cs : List Conn) (habs : mapGet s.users id = none) (hS : S ≠ id) :
    (addUsers s id (c :: cs)).1 =
        (none, false) :: (c :: cs).dropLast.map (fun x => (some x, true)) ∧
      (∀ pre x, pre ++ [x] <+: c :: cs →
        mapGet (addUsers s id (pre ++ [x])).2.users id = some x ∧
        (addUsers s id (pre ++ [x])).2.users.filter (fun e => decide (e.1 = id)) = [(id, x)] ∧
        (∀ y, id ≠ [] →
          (register (addUsers s id (pre ++ [x])).2 id y).1 = [Event.close x]) ∧
        writes (handle fail (addUsers s id (pre ++ [x])).2 S msg).1 =
          (x, OpCode.OpText, Sprintf msg S) :: writes (handle fail s S msg).1 ∧
        (∀ y, y ≠ x → y ∉ s.users.map Prod.snd →
          y ∉ (writes (handle fail (addUsers s id (pre ++ [x])).2 S msg).1).map Prod.fst)) := by
  refine ⟨?_, ?_⟩
  · rw [addUsers_reports, habs]
    rfl
  · intro pre x _
    have hu := users_addUsers_snoc id pre s x habs
    have hid : id ≠ S := fun h => hS h.symm
    have hw : writes (handle fail (addUsers s id (pre ++ [x])).2 S msg).1 =
        (x, OpCode.OpText, Sprintf msg S) :: writes (handle fail s S msg).1 := by
      simp only [handle, hu, writes_handleLoop]
      simp [hid]
    refine ⟨?_, ?_, ?_, hw, ?_⟩
    · rw [hu]
      simp [mapGet]
    · rw [addUsers_snoc]
      exact mapSet_entries_self _ id x
    · intro y hne
      have hget : mapGet (addUsers s id (pre ++ [x])).2.users id = some x := by
        rw [hu]
        simp [mapGet]
      simp [register, hne, addUser, hget]
    · intro y hy hnot hmem
      rw [hw] at hmem
      simp only [handle, writes_handleLoop, List.map_cons, List.mem_cons, List.map_map] at hmem
      rcases hmem with h | h
      · exact hy h
      · apply hnot
        obtain ⟨e, he, hey⟩ := List.mem_map.mp h
        exact List.mem_map.mpr ⟨e, (List.mem_filter.mp he).1, hey⟩

/-- Witness of C4: "alice" registered with connection 11 and then connection 12
on the server where "a" (connection 1) and "b" (connection 2) are connected;
the second call reports connection 11, and a broadcast of "b" is written to
connection 12 and to the connection of "a", not to connection 11. -/
theorem addUsers_takeover_witness :
    (addUsers demoServer (str "alice") [11, 12]).1 = [(none, false), (some 11, true)] ∧
      (writes (handle (fun _ => false) (addUsers demoServer (str "alice") [11, 12]).2
        (str "b") (str "hi")).1).map Prod.fst = [12, 1] :=
  ⟨(addUsers_takeover (fun _ => false) demoServer (str "alice") (str "b") (str "hi") 11 [12]
      (by decide) (by decide)).1,
    by decide⟩

theorem teardown_removes_entry (s : Server) (id : Bytes) (c : Conn) :
    mapGet (teardown s id c).2.users id = none :=
  mapGet_mapDelete_self s.users id

/-- C1 (the code at the failing input): "alice" connects with connection 11 and
then with connection 12; the handler closes connection 11 and the registry maps
"alice" to connection 12; the teardown of the session of connection 11 then
removes the entry of "alice" although it holds connection 12, so that a
broadcast of "b" no longer reaches connection 12. -/
theorem teardown_evicts_newer_connection :
    (register (register demoServer (str "alice") 11).2 (str "alice") 12).1 = [Event.close 11] ∧
      mapGet (register (register demoServer (str "alice") 11).2 (str "alice") 12).2.users
        (str "alice") = some 12 ∧
      mapGet (teardown (register (register demoServer (str "alice") 11).2 (str "alice") 12).2
        (str "alice") 11).2.users (str "alice") = none ∧
      writes (handle (fun _ => false)
        (teardown (register (register demoServer (str "alice") 11).2 (str "alice") 12).2
          (str "alice") 11).2 (str "b") (str "hi")).1 =
        [(1, OpCode.OpText, str "hi ----from b")] := by
  decide

/-! ## Binary commands -/

theorem slice_head (msg : Bytes) (h : 2 ≤ msg.length) :
    slice msg 0 2 = Except.ok (msg.take 2) := by
  simp [slice, h]

theorem slice_length (msg : Bytes) (h : 6 ≤ msg.length) :
    slice msg 2 6 = Except.ok ((msg.drop 2).take 4) := by
  simp [slice, h]

theorem handleBinary_short (fail : Nat → Bool) (s : Server) (user msg : Bytes)
    (h : msg.length < 6) : handleBinary fail s user msg = Except.error Fault.sliceBounds := by
  unfold handleBinary
  by_cases h2 : 2 ≤ msg.length
  · have h6 : slice msg 2 6 = Except.error Fault.sliceBounds := by
      simp [slice]; omega
    rw [slice_head msg h2]
    simp only [h6]
  · have h0 : slice msg 0 2 = Except.error Fault.sliceBounds := by
      simp [slice]; omega
    simp only [h0]

theorem Uint16_eq_ping (b0 b1 : Nat) (h0 : b0 < 256) (h1 : b1 < 256) :
    Uint16 [b0, b1] = CommandPing ↔ b0 = 0 ∧ b1 = 101 := by
  simp only [Uint16, CommandPing, List.getD_cons_zero, List.getD_cons_succ]
  constructor
  · intro h; omega
  · rintro ⟨rfl, rfl⟩; rfl

theorem conn_ne_of_distinct (m : List (Bytes × Conn)) (u v : Bytes) (c d : Conn)
    (hconn : (m.map Prod.snd).Nodup) (hu : mapGet m u = some c) (hv : mapGet m v = some d)
    (hne : u ≠ v) : c ≠ d := by
  intro hcd
  have := List.inj_on_of_nodup_map hconn (mem_of_mapGet m u c hu) (mem_of_mapGet m v d hv) hcd
  exact hne (congrArg Prod.fst this)

/-- C5: for a registered sender `S` and a payload of at least 6 bytes,
`handleBinary(S, payload)` returns normally with the state unchanged; when the
big-endian uint16 in bytes [0:2) is 101 it writes exactly one binary message,
the bytes 0,102,0,0,0,0, to the connection registered under `S`, and when the
code is anything else it has no effect at all; bytes [2:6) and the bytes after
them play no part, and when the registered connections are pairwise distinct
no connection registered under another identifier is written to. -/
theorem handleBinary_ping (fail : Nat → Bool) (s : Server) (S msg : Bytes) (c : Conn)
    (hlen : 6 ≤ msg.length) (hreg : mapGet s.users S = some c) :
    (Uint16 (msg.take 2) = 101 →
        handleBinary fail s S msg =
          Except.ok (Event.write c OpCode.OpBinary [0, 102, 0, 0, 0, 0] ::
            (if fail 0 then [Event.logError S] else []), s)) ∧
      (Uint16 (msg.take 2) ≠ 101 → handleBinary fail s S msg = Except.ok ([], s)) ∧
      (∃ ev, handleBinary fail s S msg = Except.ok (ev, s) ∧
        writes ev = (if Uint16 (msg.take 2) = 101
          then [(c, OpCode.OpBinary, [0, 102, 0, 0, 0, 0])] else []) ∧
        ((s.users.map Prod.snd).Nodup → ∀ u d, u ≠ S → mapGet s.users u = some d →
          d ∉ (writes ev).map Prod.fst)) := by
  have hyes : Uint16 (msg.take 2) = 101 →
      handleBinary fail s S msg =
        Except.ok (Event.write c OpCode.OpBinary [0, 102, 0, 0, 0, 0] ::
          (if fail 0 then [Event.logError S] else []), s) := by
    intro h
    unfold handleBinary
    rw [slice_head msg (by omega), slice_length msg hlen]
    simp [h, CommandPing, CommandPong, hreg]
  have hno : Uint16 (msg.take 2) ≠ 101 → handleBinary fail s S msg = Except.ok ([], s) := by
    intro h
    unfold handleBinary
    rw [slice_head msg (by omega), slice_length msg hlen]
    simp [h, CommandPing]
  refine ⟨hyes, hno, ?_⟩
  by_cases h : Uint16 (msg.take 2) = 101
  · refine ⟨_, hyes h, ?_, ?_⟩
    · cases hf : fail 0 <;> simp [writes, h]
    · intro hconn u d hu hd hmem
      have hcd : d = c := by
        cases hf : fail 0 <;> simpa [writes, hf] using hmem
      exact conn_ne_of_distinct s.users u S d c hconn hd hreg hu hcd
  · refine ⟨[], hno h, ?_, ?_⟩
    · simp [writes, h]
    · intro _ u d _ _ hmem
      simp [writes] at hmem

/-- Witness of C5: the Ping command 0,101,0,0,0,0 sent by "a" is answered by one
Pong on the connection of "a"; the command code 100 is answered by nothing. -/
theorem handleBinary_ping_witness :
    handleBinary (fun _ => false) demoServer (str "a") [0, 101, 0, 0, 0, 0] =
        Except.ok ([Event.write 1 OpCode.OpBinary [0, 102, 0, 0, 0, 0]], demoServer) ∧
      handleBinary (fun _ => false) demoServer (str "a") [0, 100, 0, 0, 0, 9, 7] =
        Except.ok ([], demoServer) :=
  ⟨(handleBinary_ping (fun _ => false) demoServer (str "a") [0, 101, 0, 0, 0, 0] 1
      (by decide) (by decide)).1 (by decide),
    (handleBinary_ping (fun _ => false) demoServer (str "a") [0, 100, 0, 0, 0, 9, 7] 1
      (by decide) (by decide)).2.1 (by decide)⟩

/-- C6 (the code at the failing inputs): on the empty payload, on a payload of
two bytes and on a payload of five bytes `handleBinary` panics with a slice
bounds fault instead of returning. -/
theorem handleBinary_short_payload_panics :
    handleBinary (fun _ => false) demoServer (str "a") [] = Except.error Fault.sliceBounds ∧
      handleBinary (fun _ => false) demoServer (str "a") [0, 101] =
        Except.error Fault.sliceBounds ∧
      handleBinary (fun _ => false) demoServer (str "a") [0, 101, 0, 0, 0] =
        Except.error Fault.sliceBounds :=
  ⟨rfl, rfl, rfl⟩

/-! ## Shutdown -/

theorem closeAll_eq_map (m : List (Bytes × Conn)) :
    closeAll m = m.map (fun e => Event.close e.2) := by
  induction m with
  | nil => rfl
  | cons e rest ih =>
    obtain ⟨u, c⟩ := e
    simp [closeAll, ih]

theorem closed_closeAll (m : List (Bytes × Conn)) : closed (closeAll m) = m.map Prod.snd := by
  induction m with
  | nil => rfl
  | cons e rest ih =>
    obtain ⟨u, c⟩ := e
    simp [closeAll, closed, ih]

theorem Shutdown_done (s : Server) (h : s.once = true) : Shutdown s = ([], s) := by
  simp [Shutdown, h]

theorem shutdowns_done (n : Nat) : ∀ s : Server, s.once = true → shutdowns s n = ([], s) := by
  induction n with
  | zero => intro s _; rfl
  | succ k ih =>
    intro s h
    simp [shutdowns, Shutdown_done s h, ih s h]

/-- C8: on a server whose one-shot guard has not fired, the first `Shutdown`
closes one connection per registry entry (each registered connection exactly
once when the registered connections are pairwise distinct) and leaves the
entries unchanged; every later `Shutdown` closes nothing and changes nothing;
so any number `n + 1` of calls closes each registered connection exactly
once. -/
theorem Shutdown_once (s : Server) (n : Nat) (hfresh : s.once = false) :
    (Shutdown s).1 = s.users.map (fun e => Event.close e.2) ∧
      (Shutdown s).2.users = s.users ∧
      (Shutdown s).2.once = true ∧
      Shutdown (Shutdown s).2 = ([], (Shutdown s).2) ∧
      shutdowns (Shutdown s).2 n = ([], (Shutdown s).2) ∧
      (shutdowns s (n + 1)).1 = s.users.map (fun e => Event.close e.2) ∧
      (shutdowns s (n + 1)).2 = (Shutdown s).2 ∧
      closed (shutdowns s (n + 1)).1 = s.users.map Prod.snd ∧
      ((s.users.map Prod.snd).Nodup → ∀ u c, mapGet s.users u = some c →
        (closed (shutdowns s (n + 1)).1).count c = 1) := by
  have h1 : Shutdown s = (closeAll s.users, { s with once := true }) := by
    simp [Shutdown, hfresh]
  have hdone : (Shutdown s).2.once = true := by rw [h1]
  have hlater := shutdowns_done n (Shutdown s).2 hdone
  have hall : shutdowns s (n + 1) = (closeAll s.users, (Shutdown s).2) := by
    show ((Shutdown s).1 ++ (shutdowns (Shutdown s).2 n).1, (shutdowns (Shutdown s).2 n).2) = _
    rw [hlater, h1]
    simp
  have hclosed : closed (shutdowns s (n + 1)).1 = s.users.map Prod.snd := by
    rw [hall]
    exact closed_closeAll s.users
  refine ⟨?_, ?_, hdone, Shutdown_done _ hdone, hlater, ?_, ?_, hclosed, ?_⟩
  · rw [h1]
    exact closeAll_eq_map s.users
  · rw [h1]
  · rw [hall]
    exact closeAll_eq_map s.users
  · rw [hall]
  · intro hconn u c hget
    rw [hclosed]
    exact List.count_eq_one_of_mem hconn
      (List.mem_map.mpr ⟨(u, c), mem_of_mapGet s.users u c hget, rfl⟩)

/-- Witness of C8: three calls of `Shutdown` on the server with "a" and "b"
connected close connection 1 once and connection 2 once and keep both entries. -/
theorem Shutdown_once_witness :
    demoServer.once = false ∧
      (shutdowns demoServer 3).1 = [Event.close 1, Event.close 2] ∧
      (shutdowns demoServer 3).2.users = demoServer.users :=
  ⟨rfl,
    (Shutdown_once demoServer 2 rfl).2.2.2.2.2.1.trans (by decide),
    by decide⟩

/-! ## Session loop -/

theorem readLoop_frame (user : Bytes) (conn : Conn) (f : Frame) (rest : List ReadResult)
    (hopen : f.Header.OpCode ≠ OpCode.OpClose) :
    readLoop user conn (ReadResult.frame f :: rest) =
      { readLoop user conn rest with
        events := sessionStep user conn f ++ (readLoop user conn rest).events } := by
  obtain ⟨⟨op, masked, mask⟩, payload⟩ := f
  cases op <;> simp_all [readLoop, sessionStep, dispatch, unmasked]

theorem readLoop_frames (user : Bytes) (conn : Conn) (frames : List Frame)
    (tail : List ReadResult) (hopen : ∀ f ∈ frames, f.Header.OpCode ≠ OpCode.OpClose) :
    readLoop user conn (frames.map ReadResult.frame ++ tail) =
      { readLoop user conn tail with
        events := sessionSteps user conn frames ++ (readLoop user conn tail).events } := by
  induction frames with
  | nil => rfl
  | cons f rest ih =>
    have hf : f.Header.OpCode ≠ OpCode.OpClose := hopen f (List.mem_cons_self f rest)
    have hrest : ∀ g ∈ rest, g.Header.OpCode ≠ OpCode.OpClose :=
      fun g hg => hopen g (List.mem_cons_of_mem f hg)
    show readLoop user conn (ReadResult.frame f :: (rest.map ReadResult.frame ++ tail)) = _
    rw [readLoop_frame user conn f _ hf, ih hrest]
    simp [sessionSteps, List.append_assoc]

/-- C9: on read results that start with frames none of which is a Close frame,
`readLoop` handles these frames in order as the session state machine does (one
Pong per Ping on the same connection and no dispatch, `handle` for a Text frame
and `handleBinary` for a Binary frame with the unmasked payload); when the
read results end there the loop has not returned and waits for the next read;
at the first read error it returns that error and at the first Close frame it
returns an error, and in both cases none of the read results after that point
is read, answered or dispatched. -/
theorem readLoop_session (user : Bytes) (conn : Conn) (frames : List Frame)
    (rest : List ReadResult) (hopen : ∀ f ∈ frames, f.Header.OpCode ≠ OpCode.OpClose) :
    readLoop user conn (frames.map ReadResult.frame) =
        { events := sessionSteps user conn frames, returned := none, unread := [] } ∧
      (∀ e, readLoop user conn (frames.map ReadResult.frame ++ ReadResult.err e :: rest) =
        { events := sessionSteps user conn frames, returned := some e, unread := rest }) ∧
      (∀ f : Frame, f.Header.OpCode = OpCode.OpClose →
        readLoop user conn (frames.map ReadResult.frame ++ ReadResult.frame f :: rest) =
          { events := sessionSteps user conn frames,
            returned := some (Error.new "user side close the conn"), unread := rest }) ∧
      (∀ f : Frame, f.Header.OpCode = OpCode.OpPing →
        sessionStep user conn f = [Event.write conn OpCode.OpPong []]) ∧
      (∀ f : Frame, f.Header.OpCode = OpCode.OpText →
        sessionStep user conn f = [Event.goHandle user
          (if f.Header.Masked then Cipher f.Payload f.Header.Mask 0 else f.Payload)]) ∧
      (∀ f : Frame, f.Header.OpCode = OpCode.OpBinary →
        sessionStep user conn f = [Event.goHandleBinary user
          (if f.Header.Masked then Cipher f.Payload f.Header.Mask 0 else f.Payload)]) := by
  refine ⟨?_, ?_, ?_, ?_, ?_, ?_⟩
  · have h := readLoop_frames user conn frames [] hopen
    simp only [List.append_nil] at h
    rw [h]
    simp [readLoop]
  · intro e
    rw [readLoop_frames user conn frames _ hopen]
    simp [readLoop]
  · intro f hf
    rw [readLoop_frames user conn frames _ hopen]
    simp [readLoop, hf]
  · intro f hf
    simp [sessionStep, hf]
  · intro f hf
    simp [sessionStep, hf, unmasked]
  · intro f hf
    simp [sessionStep, hf, unmasked]

/-- Witness of C9: a Ping, a masked Text frame "hi", a Binary frame, a Close frame
and a late Text frame: one Pong, one `handle` with the unmasked text, one
`handleBinary`, then the error of the Close frame; the late frame stays unread. -/
theorem readLoop_session_witness :
    readLoop (str "a") 1
        ([{ Header := { OpCode := OpCode.OpPing, Masked := false, Mask := [] }, Payload := [] },
          { Header := { OpCode := OpCode.OpText, Masked := true, Mask := [1, 2, 3, 4] },
            Payload := [105, 107] },
          { Header := { OpCode := OpCode.OpBinary, Masked := false, Mask := [] },
            Payload := [0, 101, 0, 0, 0, 0] }].map ReadResult.frame ++
          ReadResult.frame
            { Header := { OpCode := OpCode.OpClose, Masked := false, Mask := [] },
              Payload := [] } ::
          [ReadResult.frame
            { Header := { OpCode := OpCode.OpText, Masked := false, Mask := [] },
              Payload := str "late" }]) =
      { events := [Event.write 1 OpCode.OpPong [], Event.goHandle (str "a") (str "hi"),
          Event.goHandleBinary (str "a") [0, 101, 0, 0, 0, 0]],
        returned := some (Error.new "user side close the conn"),
        unread := [ReadResult.frame
          { Header := { OpCode := OpCode.OpText, Masked := false, Mask := [] },
            Payload := str "late" }] } :=
  ((readLoop_session (str "a") 1 _ _ (by decide)).2.2.1
    { Header := { OpCode := OpCode.OpClose, Masked := false, Mask := [] }, Payload := [] }
    rfl).trans (by decide)

end ChatDemo
